import Mathlib

/-!
Verification of the identifier-mapping and pathway-coverage pipeline of the
MultiomicsML repository (notebook Methods_2_StandardWorfklow.ipynb).

The notebook glues pandas, sspa and pathintegrate calls together.  The
pandas primitives used by the notebook cells are embedded directly
(numeric coercion, row dropping, integer casting, index intersection and
label-based row selection); the sspa and pathintegrate routines the
notebook calls are not part of the repository and are modelled from the
specification where a claim needs them.
-/

deriving instance DecidableEq for Except

namespace MultiomicsML

/-- A raw conversion record as returned by the identifier-resolution
service (cell-7, sspa.identifier_conversion): the queried compound name,
the raw resolved ChEBI value as a string, and the match-comment flag. -/
structure RawRecord where
  query : String
  chebi : String
  comment : String
deriving Repr, DecidableEq

/-- A cleaned conversion record after cell-8: the resolved ChEBI value is
an integer (pandas Int64). -/
structure CleanRecord where
  query : String
  chebi : Int
  comment : String
deriving Repr, DecidableEq

/-- A non-null numeric value as produced by pd.to_numeric on one cell: a
finite decimal mant * 10 ^ exp (exp may be negative), or an infinity.
NaN results (the literal nan and every unparseable string) are
represented as none by the parser, since both become NaN before the
dropna of cell-8 and are indistinguishable afterwards. -/
inductive NumVal where
  | finite (mant : Int) (exp : Int)
  | posInf
  | negInf
deriving Repr, DecidableEq

/-- The value denotes an integer.  Infinities do not. -/
def NumVal.isIntegral : NumVal → Bool
  | .finite m e => if 0 ≤ e then true else m % ((10 : Int) ^ (-e).toNat) == 0
  | .posInf => false
  | .negInf => false

/-- The integer value of an integral finite number (the value the Int64
cast of cell-8 produces); zero on the other constructors, where it is
never used. -/
def NumVal.intVal : NumVal → Int
  | .finite m e => if 0 ≤ e then m * (10 : Int) ^ e.toNat else m / (10 : Int) ^ (-e).toNat
  | .posInf => 0
  | .negInf => 0

/-- The Int64 cast of cell-8 accepts the value: it must be finite,
integral and inside the signed 64-bit range.  The value is compared
exactly; the float64 rounding pandas applies when the coerced column is
float-typed can move integral values of magnitude between 2 ^ 53 and
2 ^ 63 across the boundary and is not modelled. -/
def NumVal.isCastable (v : NumVal) : Bool :=
  v.isIntegral && decide (-(2 : Int) ^ 63 ≤ v.intVal)
    && decide (v.intVal ≤ (2 : Int) ^ 63 - 1)

/-- Value of a digit string read in base 10. -/
def digitsToNat (l : List Char) : Nat :=
  l.foldl (fun a c => 10 * a + (c.toNat - 48)) 0

/-- Exponent part of a numeric literal: an optional sign followed by at
least one digit. -/
def parseExponent (cs : List Char) : Option Int :=
  let (sgn, ds) : Int × List Char :=
    match cs with
    | '+' :: t => (1, t)
    | '-' :: t => (-1, t)
    | t => (1, t)
  if !ds.isEmpty && ds.all Char.isDigit then
    some (sgn * (digitsToNat ds : Int))
  else none

/-- Sign-free body of a numeric literal: the words inf or infinity
(case-insensitive) denote an infinity, nan denotes NaN (none), and
otherwise digits with an optional fractional part after a decimal
point (at least one digit overall) and an optional e/E exponent. -/
def parseUnsigned (cs : List Char) (neg : Bool) : Option NumVal :=
  let sign : Int := if neg then -1 else 1
  let lower := cs.map Char.toLower
  if lower = ['i', 'n', 'f'] || lower = ['i', 'n', 'f', 'i', 'n', 'i', 't', 'y'] then
    some (if neg then .negInf else .posInf)
  else if lower = ['n', 'a', 'n'] then
    none
  else
    let ip := cs.takeWhile Char.isDigit
    let rest := cs.dropWhile Char.isDigit
    match rest with
    | [] =>
        if ip.isEmpty then none
        else some (.finite (sign * (digitsToNat ip : Int)) 0)
    | '.' :: r2 =>
        let fp := r2.takeWhile Char.isDigit
        let r3 := r2.dropWhile Char.isDigit
        if ip.isEmpty && fp.isEmpty then none
        else
          match r3 with
          | [] => some (.finite (sign * (digitsToNat (ip ++ fp) : Int)) (-(fp.length : Int)))
          | e :: r4 =>
              if e = 'e' || e = 'E' then
                (parseExponent r4).map (fun ex =>
                  .finite (sign * (digitsToNat (ip ++ fp) : Int)) (ex - (fp.length : Int)))
              else none
    | e :: r4 =>
        if (e = 'e' || e = 'E') && !ip.isEmpty then
          (parseExponent r4).map (fun ex =>
            .finite (sign * (digitsToNat ip : Int)) ex)
        else none

/-- Numeric coercion of one cell, modelling pd.to_numeric(..., errors=coerce)
as used in cell-8 on one string: surrounding whitespace is ignored, an
optional sign is followed by a decimal literal with optional fractional
part and optional e/E exponent, or by inf/infinity (an infinite value)
or nan.  The literal nan and every unparseable string are both coerced
to null (none), matching the NaN both become in pandas. -/
def toNumeric? (s : String) : Option NumVal :=
  let cs := ((s.toList.dropWhile Char.isWhitespace).reverse.dropWhile
    Char.isWhitespace).reverse
  match cs with
  | '-' :: t => parseUnsigned t true
  | '+' :: t => parseUnsigned t false
  | t => parseUnsigned t false

/-- Cell-8, the Identifier Normaliser:
conversion_table[ChEBI] = pd.to_numeric(conversion_table[ChEBI], errors=coerce)
conversion_table.dropna(subset=[ChEBI], inplace=True)
conversion_table[ChEBI] = conversion_table[ChEBI].astype(Int64)
Each raw ChEBI string is coerced to a number or to null, null rows are
dropped, and the surviving column is cast to Int64.  The cast raises
when a surviving value is not castable: not integral (TypeError: cannot
safely cast non-equivalent float64 to int64), infinite, or outside the
int64 range.
coercePairs performs the first two statements: each record is paired with
its numeric coercion and the null rows are dropped. -/
def coercePairs (t : List RawRecord) : List (RawRecord × NumVal) :=
  t.filterMap (fun r => (toNumeric? r.chebi).map (fun q => (r, q)))

/-- Cell-8 in full: the coerced and filtered table is cast to Int64,
which raises when some surviving value is not castable (one error value
stands for the raise; the exact exception message depends on the value
class). -/
def normaliseConversionTable (t : List RawRecord) :
    Except String (List CleanRecord) :=
  if (coercePairs t).all (fun p => p.2.isCastable) then
    .ok ((coercePairs t).map (fun p => ⟨p.1.query, p.2.intVal, p.1.comment⟩))
  else
    .error "cannot safely cast non-equivalent float64 to int64"

/-- The effect of cell-8 on one raw record: it survives exactly when its
raw ChEBI string parses as a number whose value the Int64 cast accepts,
and then its resolved id is that integer value; a record whose string is
coerced to null is removed.  (Derived form of normaliseConversionTable
used to state its correctness.) -/
def keepRecord (x : RawRecord) : Option CleanRecord :=
  (toNumeric? x.chebi).bind (fun q =>
    if q.isCastable then some ⟨x.query, q.intVal, x.comment⟩ else none)

/-- A column key of an abundance matrix: a compound-name header before
re-annotation, or a resolved ChEBI identifier after re-annotation
(pandas column labels are untyped, so both kinds can label a column). -/
inductive ColKey
  | name (s : String)
  | chebi (n : Int)
deriving Repr, DecidableEq

/-- An abundance matrix: ordered column keys and ordered rows, each row a
SampleId label with one entry per column. -/
structure AbundanceMatrix where
  cols : List ColKey
  rows : List (String × List Int)
deriving Repr, DecidableEq

/-- First record of the cleaned table whose Query equals the given
compound name, if any (the explicit duplicate policy: first wins). -/
def lookupId (t : List CleanRecord) (s : String) : Option Int :=
  (t.find? (fun r => r.query == s)).map (fun r => r.chebi)

/-- Modelled from the spec: sspa.map_identifiers (cell-10) is not part of
this repository.  Per section 4.3, a column keyed by a CompoundName with
an entry in the cleaned table is renamed to its resolvedId and a
CompoundName column with no entry is dropped; per section 8 idempotence,
a column already keyed by a resolvedId occurring in the cleaned table is
retained unchanged, and any other identifier column is dropped. -/
def mapColKey (t : List CleanRecord) : ColKey → Option ColKey
  | .name s => (lookupId t s).map ColKey.chebi
  | .chebi n => if (t.map (fun r => r.chebi)).contains n then some (.chebi n) else none

/-- Entries of one row restricted to the kept columns: position i of the
row survives exactly when column i is kept. -/
def selectEntries : List (Option ColKey) → List Int → List Int
  | _, [] => []
  | [], _ => []
  | some _ :: ts, v :: vs => v :: selectEntries ts vs
  | none :: ts, _ :: vs => selectEntries ts vs

/-- Modelled from the spec: the Matrix Re-annotator (section 4.3), called
by the repository as sspa.map_identifiers(conversion_table, ChEBI, matrix)
in cell-10.  Columns are renamed or dropped by mapColKey and each row
keeps exactly the entries of the kept columns. -/
def map_identifiers (t : List CleanRecord) (m : AbundanceMatrix) :
    AbundanceMatrix :=
  { cols := (m.cols.map (mapColKey t)).filterMap id
    rows := m.rows.map (fun r => (r.1, selectEntries (m.cols.map (mapColKey t)) r.2)) }

/-- Cell-35: common_indices = prot.index.intersection(metab.index).
With the pandas default sort=False this is the sequence of labels of the
calling (first) index that also occur in the other index, in the order
of the first index. -/
def common_indices (p m : AbundanceMatrix) : List String :=
  (p.rows.map (fun r => r.1)).filter (fun s => (m.rows.map (fun r => r.1)).contains s)

/-- Cell-35: df.loc[idx] — the rows with the given labels, in the order
of the given labels (sample indices are unique, so each label selects
one row; the first matching row models that unique row). -/
def locRows (m : AbundanceMatrix) (idx : List String) : AbundanceMatrix :=
  { cols := m.cols
    rows := idx.filterMap (fun s => m.rows.find? (fun r => r.1 == s)) }

/-- Cell-35, the Multi-omics Aligner as written in the notebook:
common_indices = prot.index.intersection(metab.index)
prot = prot.loc[common_indices]
metab = metab.loc[common_indices]
A total function: both matrices are restricted to the common labels in
the order of the first matrix, and nothing is raised on an empty intersection. -/
def alignSamples (p m : AbundanceMatrix) : AbundanceMatrix × AbundanceMatrix :=
  (locRows p (common_indices p m), locRows m (common_indices p m))

/-- The Multi-omics Aligner as the spec words it (section 4.6): an empty
intersection is reported as a distinct error condition, "no common
samples", rather than returned as empty matrices.  Stated from the spec
for comparison with alignSamples, which embeds the notebook code. -/
def alignSamplesSpec (p m : AbundanceMatrix) :
    Except String (AbundanceMatrix × AbundanceMatrix) :=
  if common_indices p m |>.isEmpty then .error "no common samples"
  else .ok (alignSamples p m)

/-- A pathway of the pathway database: identifier, display name and the
set of member molecule identifiers (kept as a list of distinct ids). -/
structure Pathway where
  pid : String
  pname : String
  members : List Int
deriving Repr, DecidableEq

/-- Modelled from the spec: the Coverage Filter (section 4.5) inside
pathintegrate.PathIntegrate (cell-40, min_coverage=4) is not part of this
repository.  Given the pathway database, the identifier columns of the
re-annotated matrix and a minimum coverage k, it keeps exactly the
pathways whose member set meets the dataset columns in at least k
distinct identifiers; a minimum coverage k <= 0 is rejected. -/
def coverageFilter (db : List Pathway) (cols : List Int) (k : Int) :
    Except String (List Pathway) :=
  if k ≤ 0 then .error "min_coverage must be a positive integer"
  else
    .ok (db.filter (fun P =>
      k ≤ ((P.members.toFinset ∩ cols.toFinset).card : Int)))

lemma coercePairs_cons (x : RawRecord) (t : List RawRecord) :
    coercePairs (x :: t) =
      match toNumeric? x.chebi with
      | none => coercePairs t
      | some q => (x, q) :: coercePairs t := by
  unfold coercePairs
  rw [List.filterMap_cons]
  cases h : toNumeric? x.chebi <;> simp [h]

lemma kept_map_eq_filterMap (t : List RawRecord)
    (h : ∀ x ∈ t, ∀ q, toNumeric? x.chebi = some q → q.isCastable = true) :
    (coercePairs t).map
        (fun p => (⟨p.1.query, p.2.intVal, p.1.comment⟩ : CleanRecord))
      = t.filterMap keepRecord := by
  induction t with
  | nil => rfl
  | cons x t ih =>
    have hx : ∀ q, toNumeric? x.chebi = some q → q.isCastable = true :=
      fun q hq => h x (List.mem_cons_self x t) q hq
    have ht : ∀ y ∈ t, ∀ q, toNumeric? y.chebi = some q → q.isCastable = true :=
      fun y hy q hq => h y (List.mem_cons_of_mem x hy) q hq
    rw [coercePairs_cons, List.filterMap_cons]
    cases hq : toNumeric? x.chebi with
    | none => simp [keepRecord, hq, ih ht]
    | some q => simp [keepRecord, hq, hx q hq, ih ht]

lemma all_castable_iff (t : List RawRecord) :
    ((coercePairs t).all (fun p => p.2.isCastable) = true)
      ↔ ∀ x ∈ t, ∀ q, toNumeric? x.chebi = some q → q.isCastable = true := by
  constructor
  · intro h x hx q hq
    have hmem : (x, q) ∈ coercePairs t := by
      unfold coercePairs
      exact List.mem_filterMap.mpr ⟨x, hx, by simp [hq]⟩
    simpa using List.all_eq_true.mp h _ hmem
  · intro h
    apply List.all_eq_true.mpr
    intro p hp
    obtain ⟨a, ha, hmap⟩ := List.mem_filterMap.mp hp
    obtain ⟨q, hq, hpq⟩ := Option.map_eq_some'.mp hmap
    subst hpq
    simpa using h a ha q hq

lemma normalise_ok_parts {t : List RawRecord} {r : List CleanRecord}
    (h : normaliseConversionTable t = .ok r) :
    ((coercePairs t).all (fun p => p.2.isCastable) = true) ∧
      r = (coercePairs t).map (fun p => ⟨p.1.query, p.2.intVal, p.1.comment⟩) := by
  unfold normaliseConversionTable at h
  split at h
  · next hall =>
    refine ⟨hall, ?_⟩
    injection h with h
    exact h.symm
  · exact absurd h (by simp)

lemma filterMap_keep_proj (t : List RawRecord)
    (h : ∀ x ∈ t, ∀ q, toNumeric? x.chebi = some q → q.isCastable = true) :
    (t.filterMap keepRecord).map (fun c => (c.query, c.comment))
      = (t.filter (fun x => (toNumeric? x.chebi).isSome)).map
          (fun x => (x.query, x.comment)) := by
  induction t with
  | nil => rfl
  | cons x t ih =>
    have hx : ∀ q, toNumeric? x.chebi = some q → q.isCastable = true :=
      fun q hq => h x (List.mem_cons_self x t) q hq
    have ht : ∀ y ∈ t, ∀ q, toNumeric? y.chebi = some q → q.isCastable = true :=
      fun y hy q hq => h y (List.mem_cons_of_mem x hy) q hq
    rw [List.filterMap_cons, List.filter_cons]
    cases hq : toNumeric? x.chebi with
    | none => simp [keepRecord, hq, ih ht]
    | some q => simp [keepRecord, hq, hx q hq, ih ht]

/-- C2 counterexample: the normaliser of cell-8 lets zero and negative
resolved values survive, so "every surviving resolvedId is a positive
integer" fails on the code: the raw strings "-5" and "0" parse as
numbers, pass the null filter, cast to Int64, and survive with values
-5 and 0. -/
theorem normalise_nonpositive_id_survives_cex :
    normaliseConversionTable [⟨"cpdA", "-5", "1"⟩] = .ok [⟨"cpdA", -5, "1"⟩]
    ∧ normaliseConversionTable [⟨"cpdB", "0", "1"⟩] = .ok [⟨"cpdB", 0, "1"⟩]
    ∧ ¬ (0 < (-5 : Int)) ∧ ¬ (0 < (0 : Int)) := by decide

/-- C2 (amended): whenever the Identifier Normaliser (cell-8) completes,
the cleaned table is exactly the input table with every record whose
resolvedId string does not parse as an integral number removed and every
surviving resolvedId replaced by the integer value of its parse — no
nulls remain, but zero and negative integers are not filtered out. -/
theorem normalise_ok_characterisation (t : List RawRecord) (r : List CleanRecord)
    (h : normaliseConversionTable t = .ok r) :
    r = t.filterMap keepRecord := by
  obtain ⟨hall, hr⟩ := normalise_ok_parts h
  rw [hr]
  exact kept_map_eq_filterMap t ((all_castable_iff t).mp hall)

/-- C2 witness: the amended characterisation evaluated on a concrete
table with one resolvable and one unresolvable name. -/
theorem normalise_ok_characterisation_witness :
    ([⟨"glucose", 17234, "1"⟩] : List CleanRecord)
      = ([⟨"glucose", "17234", "1"⟩, ⟨"unknownXYZ", "null", "0"⟩]
          : List RawRecord).filterMap keepRecord :=
  normalise_ok_characterisation _ _ (by decide)

/-- C3 counterexample: the claim that normalisation completes on every
input table fails.  Three parseable resolvedId strings escape the null
coercion and then make the Int64 cast of cell-8 raise: "3.5" (parses to
a non-integral number), "inf" (parses to infinity, which dropna keeps
since it is not NaN), and "10000000000000000000" (parses to an integer
beyond the int64 range). -/
theorem normalise_raises_on_cast_failures_cex :
    toNumeric? "3.5" = some (NumVal.finite 35 (-1))
    ∧ (normaliseConversionTable [⟨"q1", "3.5", "1"⟩]).isOk = false
    ∧ toNumeric? "inf" = some NumVal.posInf
    ∧ (normaliseConversionTable [⟨"q2", "inf", "1"⟩]).isOk = false
    ∧ toNumeric? "10000000000000000000"
        = some (NumVal.finite 10000000000000000000 0)
    ∧ (normaliseConversionTable
        [⟨"q3", "10000000000000000000", "1"⟩]).isOk = false := by decide

/-- C3 (amended): the Identifier Normaliser never raises on a resolvedId
string that cannot be parsed as a number — such values are coerced to
null and their records filtered out, as the witness table containing an
unparseable string shows — but normalisation does not complete on every
input: the Int64 cast raises on values that parse to a non-integral,
infinite or out-of-int64-range number.  Normalisation is proved to
complete whenever every parseable resolvedId parses to an integral
value of magnitude at most 2 ^ 53 (within which pandas float64
representation of the parsed value is exact). -/
theorem normalise_completes_on_small_integral (t : List RawRecord)
    (h : t.all (fun x => (toNumeric? x.chebi).all
        (fun v => v.isIntegral && decide (v.intVal.natAbs ≤ 2 ^ 53))) = true) :
    (normaliseConversionTable t).isOk = true := by
  have hall : ((coercePairs t).all (fun p => p.2.isCastable)) = true := by
    apply (all_castable_iff t).mpr
    intro x hx v hv
    have hx' := List.all_eq_true.mp h x hx
    rw [hv] at hx'
    simp only [Option.all_some, Bool.and_eq_true, decide_eq_true_eq] at hx'
    obtain ⟨hint, hsmall⟩ := hx'
    have h53 : (2 : Nat) ^ 53 = 9007199254740992 := by norm_num
    rw [h53] at hsmall
    unfold NumVal.isCastable
    rw [hint]
    simp only [Bool.true_and, Bool.and_eq_true, decide_eq_true_eq]
    have h63 : (2 : Int) ^ 63 = 9223372036854775808 := by norm_num
    rw [h63]
    omega
  unfold normaliseConversionTable
  rw [if_pos hall]
  rfl

/-- C3 witness: completion evaluated on a concrete table holding a plain
integer, an unparseable string (coerced to null and dropped without a
raise), an exponent-notation integer and a whitespace-padded integer. -/
theorem normalise_completes_on_small_integral_witness :
    (normaliseConversionTable
        [⟨"glucose", "17234", "1"⟩, ⟨"unknownXYZ", "null", "0"⟩,
         ⟨"pyruvate", "1e3", "1"⟩, ⟨"padded", " 55 ", "1"⟩]).isOk = true :=
  normalise_completes_on_small_integral _ (by decide)

/-- C10: the Identifier Normaliser modifies only the resolvedId field:
whenever it completes, the surviving records carry the Query and Comment
strings of their source records unchanged and appear in the same
relative order, namely the order of the input records whose resolvedId
string parses as a number. -/
theorem normalise_preserves_query_comment (t : List RawRecord)
    (r : List CleanRecord) (h : normaliseConversionTable t = .ok r) :
    r.map (fun c => (c.query, c.comment))
      = (t.filter (fun x => (toNumeric? x.chebi).isSome)).map
          (fun x => (x.query, x.comment)) := by
  obtain ⟨hall, hr⟩ := normalise_ok_parts h
  have hint := (all_castable_iff t).mp hall
  rw [hr, kept_map_eq_filterMap t hint, filterMap_keep_proj t hint]

/-- C10 witness: the frame property evaluated on a concrete table. -/
theorem normalise_preserves_query_comment_witness :
    ([⟨"glucose", 17234, "1"⟩, ⟨"lactate", 422, "1"⟩] : List CleanRecord).map
        (fun c => (c.query, c.comment))
      = (([⟨"glucose", "17234", "1"⟩, ⟨"bogus", "n/a", "0"⟩,
           ⟨"lactate", "422", "1"⟩] : List RawRecord).filter
          (fun x => (toNumeric? x.chebi).isSome)).map
          (fun x => (x.query, x.comment)) :=
  normalise_preserves_query_comment _ _ (by decide)

lemma locRows_map_fst (m : AbundanceMatrix) (idx : List String)
    (h : ∀ s ∈ idx, ∃ r ∈ m.rows, r.1 = s) :
    (locRows m idx).rows.map (fun r => r.1) = idx := by
  induction idx with
  | nil => rfl
  | cons s idx ih =>
    obtain ⟨r0, hr0, hr0s⟩ := h s (List.mem_cons_self s idx)
    have hfind : ∃ a, m.rows.find? (fun r => r.1 == s) = some a := by
      rw [← Option.isSome_iff_exists, List.find?_isSome]
      exact ⟨r0, hr0, by simp [hr0s]⟩
    obtain ⟨a, ha⟩ := hfind
    have has : a.1 = s := by simpa using List.find?_some ha
    have hidx := ih (fun x hx => h x (List.mem_cons_of_mem s hx))
    simp only [locRows, List.filterMap_cons, ha] at hidx ⊢
    simp [has, hidx]

lemma mem_common_indices {p m : AbundanceMatrix} {s : String} :
    s ∈ common_indices p m
      ↔ (∃ r ∈ p.rows, r.1 = s) ∧ (∃ r ∈ m.rows, r.1 = s) := by
  unfold common_indices
  simp only [List.mem_filter, List.mem_map, List.elem_eq_mem, decide_eq_true_eq]

lemma filter_find_nodup (rs : List (String × List Int)) (q : String → Bool)
    (h : (rs.map (fun r => r.1)).Nodup) :
    ((rs.map (fun r => r.1)).filter q).filterMap
        (fun s => rs.find? (fun r => r.1 == s))
      = rs.filter (fun r => q r.1) := by
  induction rs with
  | nil => rfl
  | cons a tl ih =>
    simp only [List.map_cons, List.nodup_cons] at h
    obtain ⟨hnotin, htl⟩ := h
    have hcongr : ∀ s ∈ (tl.map (fun r => r.1)).filter q,
        ((a :: tl).find? (fun r => r.1 == s)) = tl.find? (fun r => r.1 == s) := by
      intro s hs
      have hsm : s ∈ tl.map (fun r => r.1) := (List.mem_filter.mp hs).1
      have hne : a.1 ≠ s := fun he => hnotin (he ▸ hsm)
      have hb : (a.1 == s) = false := beq_eq_false_iff_ne.mpr hne
      rw [List.find?_cons, hb]
    have hfun : ((tl.map (fun r => r.1)).filter q).filterMap
          (fun s => (a :: tl).find? (fun r => r.1 == s))
        = tl.filter (fun r => q r.1) := by
      rw [List.filterMap_congr hcongr, ih htl]
    rw [List.map_cons]
    cases hqa : q a.1 with
    | true =>
      rw [@List.filter_cons_of_pos _ q a.1 (tl.map (fun r => r.1)) hqa,
        @List.filter_cons_of_pos _ (fun r => q r.1) a tl hqa,
        List.filterMap_cons]
      have hfa : (a :: tl).find? (fun r => r.1 == a.1) = some a := by
        have hb : (a.1 == a.1) = true := beq_self_eq_true a.1
        rw [List.find?_cons, hb]
      rw [hfa, hfun]
    | false =>
      have hqa' : ¬ q a.1 = true := by simp [hqa]
      rw [@List.filter_cons_of_neg _ q a.1 (tl.map (fun r => r.1)) hqa',
        @List.filter_cons_of_neg _ (fun r => q r.1) a tl hqa']
      exact hfun

/-- C1 counterexample: on two matrices with disjoint SampleId sets the
aligner of cell-35 returns both matrices restricted to the empty common
index — two empty-row matrices — while only the spec-worded variant
reports the "no common samples" error; the code raises nothing. -/
theorem align_disjoint_returns_empty_matrices_cex :
    (alignSamples ⟨[ColKey.name "x"], [("A", [1]), ("B", [2])]⟩
        ⟨[ColKey.name "y"], [("C", [3]), ("D", [4])]⟩).1.rows = []
    ∧ (alignSamples ⟨[ColKey.name "x"], [("A", [1]), ("B", [2])]⟩
        ⟨[ColKey.name "y"], [("C", [3]), ("D", [4])]⟩).2.rows = []
    ∧ alignSamplesSpec ⟨[ColKey.name "x"], [("A", [1]), ("B", [2])]⟩
        ⟨[ColKey.name "y"], [("C", [3]), ("D", [4])]⟩
      = .error "no common samples" := by decide

/-- C1 (amended): when the SampleId intersection is empty, the aligner of
cell-35 silently returns the two matrices restricted to the empty sample
list (no rows) instead of raising; the EmptyIntersection error exists
only in the spec-worded variant alignSamplesSpec. -/
theorem align_empty_intersection_silent (p m : AbundanceMatrix)
    (h : common_indices p m = []) :
    (alignSamples p m).1.rows = [] ∧ (alignSamples p m).2.rows = []
    ∧ alignSamplesSpec p m = .error "no common samples" := by
  unfold alignSamples alignSamplesSpec locRows
  rw [h]
  simp

/-- C1 witness: the amended statement evaluated on the disjoint pair of
scenario 4. -/
theorem align_empty_intersection_silent_witness :
    (alignSamples ⟨[ColKey.name "u"], [("A", [5]), ("B", [6])]⟩
        ⟨[ColKey.name "v"], [("C", [7]), ("D", [8])]⟩).1.rows = []
    ∧ (alignSamples ⟨[ColKey.name "u"], [("A", [5]), ("B", [6])]⟩
        ⟨[ColKey.name "v"], [("C", [7]), ("D", [8])]⟩).2.rows = []
    ∧ alignSamplesSpec ⟨[ColKey.name "u"], [("A", [5]), ("B", [6])]⟩
        ⟨[ColKey.name "v"], [("C", [7]), ("D", [8])]⟩
      = .error "no common samples" :=
  align_empty_intersection_silent _ _ (by decide)

/-- C6 counterexample: the second matrix does not keep its own original
row order: with first-matrix samples [A, B] and second-matrix samples
[B, A], the aligned second matrix carries its surviving rows in the
order [A, B] of the first matrix, not in its own order [B, A]. -/
theorem align_second_matrix_order_cex :
    (alignSamples ⟨[ColKey.name "x"], [("A", [1]), ("B", [2])]⟩
          ⟨[ColKey.name "y"], [("B", [3]), ("A", [4])]⟩).2.rows.map
        (fun r => r.1) = ["A", "B"]
    ∧ ((⟨[ColKey.name "y"], [("B", [3]), ("A", [4])]⟩ :
          AbundanceMatrix).rows.map (fun r => r.1)).filter
        (fun s => (common_indices ⟨[ColKey.name "x"], [("A", [1]), ("B", [2])]⟩
            ⟨[ColKey.name "y"], [("B", [3]), ("A", [4])]⟩).contains s)
      = ["B", "A"]
    ∧ ¬ ((alignSamples ⟨[ColKey.name "x"], [("A", [1]), ("B", [2])]⟩
          ⟨[ColKey.name "y"], [("B", [3]), ("A", [4])]⟩).2.rows.map
          (fun r => r.1)
        = ((⟨[ColKey.name "y"], [("B", [3]), ("A", [4])]⟩ :
              AbundanceMatrix).rows.map (fun r => r.1)).filter
            (fun s => (common_indices
                ⟨[ColKey.name "x"], [("A", [1]), ("B", [2])]⟩
                ⟨[ColKey.name "y"], [("B", [3]), ("A", [4])]⟩).contains s)) := by
  decide

/-- C6 (amended): with unique SampleIds in the first matrix, the aligner
of cell-35 restricts both matrices to the common SampleId set, but both
come back in the original row order of the FIRST matrix: the first
matrix is exactly its own rows filtered to the common samples (its
order preserved), while the rows of the second matrix are reindexed to that same
common sequence, not to its own original order. -/
theorem align_order_first_matrix (p m : AbundanceMatrix)
    (hnd : (p.rows.map (fun r => r.1)).Nodup) :
    (alignSamples p m).1.rows
        = p.rows.filter (fun r => (m.rows.map (fun x => x.1)).contains r.1)
    ∧ (alignSamples p m).2.rows.map (fun r => r.1) = common_indices p m := by
  constructor
  · show (locRows p (common_indices p m)).rows = _
    unfold common_indices locRows
    exact filter_find_nodup p.rows _ hnd
  · apply locRows_map_fst
    intro s hs
    exact (mem_common_indices.mp hs).2

/-- C6 witness: the amended statement evaluated on scenario 3, sample
sets [A, B, C] and [B, C, D]; the aligned common sequence is [B, C]. -/
theorem align_order_first_matrix_witness :
    ((alignSamples ⟨[ColKey.name "x"], [("A", [1]), ("B", [2]), ("C", [3])]⟩
          ⟨[ColKey.name "y"], [("B", [4]), ("C", [5]), ("D", [6])]⟩).1.rows
        = (⟨[ColKey.name "x"], [("A", [1]), ("B", [2]), ("C", [3])]⟩ :
            AbundanceMatrix).rows.filter
            (fun r => ((⟨[ColKey.name "y"],
                [("B", [4]), ("C", [5]), ("D", [6])]⟩ :
                AbundanceMatrix).rows.map (fun x => x.1)).contains r.1)
      ∧ (alignSamples ⟨[ColKey.name "x"], [("A", [1]), ("B", [2]), ("C", [3])]⟩
          ⟨[ColKey.name "y"], [("B", [4]), ("C", [5]), ("D", [6])]⟩).2.rows.map
          (fun r => r.1)
        = common_indices ⟨[ColKey.name "x"], [("A", [1]), ("B", [2]), ("C", [3])]⟩
            ⟨[ColKey.name "y"], [("B", [4]), ("C", [5]), ("D", [6])]⟩)
    ∧ common_indices ⟨[ColKey.name "x"], [("A", [1]), ("B", [2]), ("C", [3])]⟩
        ⟨[ColKey.name "y"], [("B", [4]), ("C", [5]), ("D", [6])]⟩ = ["B", "C"] :=
  ⟨align_order_first_matrix _ _ (by decide), by decide⟩

/-- C9: after alignment on a non-empty common SampleId set, the two
output matrices have element-wise identical row index sequences, both
equal to common_indices p m, which is by definition the original index
of the first matrix filtered to membership in the index of the second; so
row-wise pairing of the outputs is sample-consistent. -/
theorem align_indices_equal_first_common (p m : AbundanceMatrix)
    (h : common_indices p m ≠ []) :
    (alignSamples p m).1.rows.map (fun r => r.1) = common_indices p m
    ∧ (alignSamples p m).2.rows.map (fun r => r.1) = common_indices p m := by
  constructor
  · apply locRows_map_fst
    intro s hs
    exact (mem_common_indices.mp hs).1
  · apply locRows_map_fst
    intro s hs
    exact (mem_common_indices.mp hs).2

/-- C9 witness: the index-agreement property evaluated on a concrete
overlapping pair. -/
theorem align_indices_equal_first_common_witness :
    ((alignSamples ⟨[ColKey.name "p"], [("A", [1]), ("B", [2]), ("C", [3])]⟩
          ⟨[ColKey.name "q"], [("B", [4]), ("C", [5]), ("D", [6])]⟩).1.rows.map
          (fun r => r.1)
        = common_indices ⟨[ColKey.name "p"], [("A", [1]), ("B", [2]), ("C", [3])]⟩
            ⟨[ColKey.name "q"], [("B", [4]), ("C", [5]), ("D", [6])]⟩
      ∧ (alignSamples ⟨[ColKey.name "p"], [("A", [1]), ("B", [2]), ("C", [3])]⟩
          ⟨[ColKey.name "q"], [("B", [4]), ("C", [5]), ("D", [6])]⟩).2.rows.map
          (fun r => r.1)
        = common_indices ⟨[ColKey.name "p"], [("A", [1]), ("B", [2]), ("C", [3])]⟩
            ⟨[ColKey.name "q"], [("B", [4]), ("C", [5]), ("D", [6])]⟩)
    ∧ common_indices ⟨[ColKey.name "p"], [("A", [1]), ("B", [2]), ("C", [3])]⟩
        ⟨[ColKey.name "q"], [("B", [4]), ("C", [5]), ("D", [6])]⟩ = ["B", "C"] :=
  ⟨align_indices_equal_first_common _ _ (by decide), by decide⟩

lemma mapColKey_fixed {t : List CleanRecord} {c c' : ColKey}
    (h : mapColKey t c = some c') : mapColKey t c' = some c' := by
  cases c with
  | name s =>
    simp only [mapColKey, lookupId] at h
    obtain ⟨i, hi, hc'⟩ := Option.map_eq_some'.mp h
    subst hc'
    obtain ⟨rec, hrec, hreci⟩ := Option.map_eq_some'.mp hi
    have hmem : rec ∈ t := List.mem_of_find?_eq_some hrec
    have hcont : (t.map (fun r => r.chebi)).contains i = true := by
      simp only [List.elem_eq_mem, decide_eq_true_eq]
      exact hreci ▸ List.mem_map_of_mem (fun r => r.chebi) hmem
    simp only [mapColKey]
    rw [if_pos hcont]
  | chebi n =>
    simp only [mapColKey] at h
    split at h
    · next hc =>
      injection h with h
      subst h
      simp only [mapColKey]
      rw [if_pos hc]
    · exact absurd h (by simp)

lemma selectEntries_length_le (tags : List (Option ColKey)) (vs : List Int) :
    (selectEntries tags vs).length ≤ (tags.filterMap id).length := by
  induction tags generalizing vs with
  | nil => cases vs <;> simp [selectEntries]
  | cons o ts ih =>
    cases vs with
    | nil => simp [selectEntries]
    | cons v vs =>
      cases o with
      | none =>
        simp only [selectEntries, List.filterMap_cons]
        exact ih vs
      | some c =>
        simp only [selectEntries, List.filterMap_cons, List.length_cons]
        exact Nat.succ_le_succ (ih vs)

lemma selectEntries_map_some (l : List ColKey) (vs : List Int)
    (h : vs.length ≤ l.length) : selectEntries (l.map some) vs = vs := by
  induction l generalizing vs with
  | nil =>
    cases vs with
    | nil => rfl
    | cons v vs => simp at h
  | cons c l ih =>
    cases vs with
    | nil => rfl
    | cons v vs =>
      simp only [List.map_cons, selectEntries]
      rw [ih vs (by simpa using h)]

lemma map_identifiers_fixed (t : List CleanRecord) (m : AbundanceMatrix)
    (h1 : ∀ c ∈ m.cols, mapColKey t c = some c)
    (h2 : ∀ r ∈ m.rows, r.2.length ≤ m.cols.length) :
    map_identifiers t m = m := by
  have hmap : m.cols.map (mapColKey t) = m.cols.map some :=
    List.map_congr_left h1
  obtain ⟨cols, rows⟩ := m
  simp only at h2 hmap
  unfold map_identifiers
  simp only [hmap]
  congr 1
  · rw [List.filterMap_map]
    simp
  · conv_rhs => rw [← List.map_id rows]
    apply List.map_congr_left
    intro r hr
    have := selectEntries_map_some cols r.2 (h2 r hr)
    simp [this]

/-- C7: the Matrix Re-annotator is idempotent: re-annotating an already
re-annotated matrix with the same cleaned conversion table a second time
changes nothing, for every table and every matrix. -/
theorem map_identifiers_idempotent (t : List CleanRecord) (m : AbundanceMatrix) :
    map_identifiers t (map_identifiers t m) = map_identifiers t m := by
  apply map_identifiers_fixed
  · intro c hc
    obtain ⟨o, ho, hoc⟩ := List.mem_filterMap.mp hc
    obtain ⟨c0, hc0, hoc0⟩ := List.mem_map.mp ho
    have : mapColKey t c0 = some c := by rw [hoc0]; exact hoc
    exact mapColKey_fixed this
  · intro r hr
    obtain ⟨r0, hr0, hrr⟩ := List.mem_map.mp hr
    subst hrr
    show (selectEntries (m.cols.map (mapColKey t)) r0.2).length
        ≤ ((m.cols.map (mapColKey t)).filterMap id).length
    exact selectEntries_length_le _ _

/-- C4: for a matrix keyed by CompoundNames, the re-annotated matrix has
exactly the columns whose CompoundName has an entry in the cleaned
table, renamed to their resolvedId, and every unmapped column is
dropped. -/
theorem map_identifiers_name_columns (t : List CleanRecord) (m : AbundanceMatrix)
    (h : ∀ c ∈ m.cols, ∃ s, c = ColKey.name s) :
    (map_identifiers t m).cols
      = m.cols.filterMap (fun c =>
          match c with
          | ColKey.name s => (lookupId t s).map ColKey.chebi
          | ColKey.chebi _ => none) := by
  unfold map_identifiers
  simp only
  rw [List.filterMap_map]
  apply List.filterMap_congr
  intro c hc
  obtain ⟨s, hcs⟩ := h c hc
  subst hcs
  simp [mapColKey]

/-- C4 witness: scenario 1, columns glucose, lactate, unknownXYZ with
glucose resolving to 17234, lactate to 422 and unknownXYZ unresolved
(dropped by the normaliser), yields columns [17234, 422] only; the
cleaned table is itself obtained by the normaliser. -/
theorem map_identifiers_name_columns_witness :
    normaliseConversionTable
        [⟨"glucose", "17234", "1"⟩, ⟨"lactate", "422", "1"⟩,
         ⟨"unknownXYZ", "null", "0"⟩]
      = .ok [⟨"glucose", 17234, "1"⟩, ⟨"lactate", 422, "1"⟩]
    ∧ (map_identifiers [⟨"glucose", 17234, "1"⟩, ⟨"lactate", 422, "1"⟩]
        ⟨[ColKey.name "glucose", ColKey.name "lactate", ColKey.name "unknownXYZ"],
         [("s1", [1, 2, 3]), ("s2", [4, 5, 6])]⟩).cols
      = [ColKey.chebi 17234, ColKey.chebi 422] :=
  ⟨by decide,
    (map_identifiers_name_columns _ _ (by
      intro c hc
      simp only [List.mem_cons, List.not_mem_nil, or_false] at hc
      rcases hc with rfl | rfl | rfl
      · exact ⟨"glucose", rfl⟩
      · exact ⟨"lactate", rfl⟩
      · exact ⟨"unknownXYZ", rfl⟩)).trans (by decide)⟩

/-- C5: for every minimum coverage k >= 1 the Coverage Filter returns,
without error, exactly the pathways whose member set meets the dataset
column set in at least k distinct identifiers; with k = 1 these are
exactly the pathways having some member among the dataset columns, and
when k exceeds the total membership of every pathway the result is the empty
database, still without error. -/
theorem coverageFilter_characterisation (db : List Pathway) (cols : List Int)
    (k : Int) (hk : 1 ≤ k) :
    coverageFilter db cols k
        = .ok (db.filter (fun P =>
            k ≤ ((P.members.toFinset ∩ cols.toFinset).card : Int)))
    ∧ (k = 1 → coverageFilter db cols k
        = .ok (db.filter (fun P => P.members.any (fun c => cols.contains c))))
    ∧ ((∀ P ∈ db, ((P.members.toFinset.card : Int) < k)) →
        coverageFilter db cols k = .ok []) := by
  have hpos : ¬ (k ≤ 0) := by omega
  refine ⟨?_, ?_, ?_⟩
  · unfold coverageFilter
    rw [if_neg hpos]
  · intro hk1
    subst hk1
    unfold coverageFilter
    rw [if_neg hpos]
    congr 1
    apply List.filter_congr
    intro P _
    rw [Bool.eq_iff_iff]
    simp only [decide_eq_true_eq, List.any_eq_true, List.elem_eq_mem]
    constructor
    · intro hcard
      have hc : 0 < (P.members.toFinset ∩ cols.toFinset).card := by
        omega
      obtain ⟨x, hx⟩ := Finset.card_pos.mp hc
      rw [Finset.mem_inter] at hx
      exact ⟨x, List.mem_toFinset.mp hx.1,
        by simpa using List.mem_toFinset.mp hx.2⟩
    · rintro ⟨x, hxm, hxc⟩
      have hx : x ∈ P.members.toFinset ∩ cols.toFinset :=
        Finset.mem_inter.mpr ⟨List.mem_toFinset.mpr hxm,
          List.mem_toFinset.mpr (by simpa using hxc)⟩
      have hc : 0 < (P.members.toFinset ∩ cols.toFinset).card :=
        Finset.card_pos.mpr ⟨x, hx⟩
      omega
  · intro hbig
    unfold coverageFilter
    rw [if_neg hpos]
    congr 1
    rw [List.filter_eq_nil_iff]
    intro P hP
    have h1 : (P.members.toFinset ∩ cols.toFinset).card
        ≤ P.members.toFinset.card :=
      Finset.card_le_card Finset.inter_subset_left
    have h2 := hbig P hP
    simp only [decide_eq_true_eq]
    omega

/-- C5 witness: scenario 2, pathway database with P1 having members
17234, 422, 999 and P2 having member 17234, dataset columns 17234 and
422, minimum coverage 2: exactly P1 survives. -/
theorem coverageFilter_characterisation_witness :
    coverageFilter [⟨"P1", "p1", [17234, 422, 999]⟩, ⟨"P2", "p2", [17234]⟩]
        [17234, 422] 2
      = .ok [⟨"P1", "p1", [17234, 422, 999]⟩] :=
  ((coverageFilter_characterisation _ _ 2 (by decide)).1).trans (by decide)

/-- C8: the Coverage Filter rejects every minimum coverage k <= 0: the
call fails with an error rather than returning a filtered database, for
every pathway database and every column set. -/
theorem coverageFilter_rejects_nonpositive (db : List Pathway)
    (cols : List Int) (k : Int) (hk : k ≤ 0) :
    coverageFilter db cols k
      = .error "min_coverage must be a positive integer" := by
  unfold coverageFilter
  rw [if_pos hk]

/-- C8 witness: the rejection evaluated at minimum coverage 0 on a
concrete database. -/
theorem coverageFilter_rejects_nonpositive_witness :
    coverageFilter [⟨"P1", "p1", [17234]⟩] [17234] 0
      = .error "min_coverage must be a positive integer" :=
  coverageFilter_rejects_nonpositive _ _ 0 (by decide)

end MultiomicsML
